import Mathlib

/-!
Verification of the diff core of `text-diff-viewer`.

The repository's computational core lives in `src/utils/levenshtein.ts`
(dynamic-programming edit distance, backtrace, operation optimizer, diff
record conversion, similarity) and `src/utils/textProcessor.ts` (text
normalization, character splitting, and a second, unoptimized copy of
`calculateLevenshtein`).  This file is a shallow embedding of those
functions, followed by theorems settling the frozen claims.

Conventions: JS arrays of strings become `List String`; absent optional
fields become `Option`; the floating-point similarity arithmetic is
modelled over `ℚ` (the values involved are tiny and exact); wall-clock
time is modelled by an explicit `elapsed : Nat → Nat` oracle giving the
elapsed milliseconds observed at the start of each matrix row.
-/

/-- Kind of a raw Levenshtein operation (`'replace' | 'delete' | 'insert'`). -/
inductive LevOpKind where
  | replace
  | delete
  | insert
deriving DecidableEq, Repr

/-- `LevenshteinOperation` from levenshtein.ts: `{type, position, oldChar?, newChar?}`. -/
structure LevenshteinOperation where
  type : LevOpKind
  position : Nat
  oldChar : Option String
  newChar : Option String
deriving DecidableEq, Repr

/-- `LevenshteinResult` from levenshtein.ts. -/
structure LevenshteinResult where
  editDistance : Nat
  operations : List LevenshteinOperation
deriving DecidableEq, Repr

/-- Kind of a public diff record (`'add' | 'delete' | 'modify'`), types/diff.ts. -/
inductive DiffRecordKind where
  | add
  | delete
  | modify
deriving DecidableEq, Repr

/-- `DiffRecord` from types/diff.ts: `{position, type, content, originalContent?}`. -/
structure DiffRecord where
  position : Nat
  type : DiffRecordKind
  content : String
  originalContent : Option String
deriving DecidableEq, Repr

/-- `DiffResult` from types/diff.ts.  The similarity percentage is modelled in `ℚ`. -/
structure DiffResult where
  editDistance : Nat
  diffs : List DiffRecord
  similarity : ℚ
  text1 : String
  text2 : String
deriving DecidableEq, Repr

namespace TextProcessor

/-- Global leftmost replacement of the two-character pattern CR LF by LF
(`text.replace(/\r\n/g, '\n')` at the character level). -/
def replaceCRLF : List Char → List Char
  | '\r' :: '\n' :: rest => '\n' :: replaceCRLF rest
  | c :: rest => c :: replaceCRLF rest
  | [] => []

/-- `normalizeLineBreaks`: CRLF → LF first, then lone CR → LF (a
single-character global replace is a character map). -/
def normalizeLineBreaks (text : String) : String :=
  String.mk ((replaceCRLF text.data).map fun c => if c = '\r' then '\n' else c)

/-- `removeBOM`: drop the first character when its code is 0xFEFF. -/
def removeBOM (text : String) : String :=
  match text.data with
  | c :: rest => if c.toNat = 0xFEFF then String.mk rest else text
  | [] => text

/-- Options of `normalizeWhitespace`; absent keys are `none` (JS destructuring
defaults are applied inside the function, as in the source). -/
structure WhitespaceOptions where
  preserveTabs : Option Bool
  normalizeSpaces : Option Bool
  maxConsecutiveSpaces : Option Nat
deriving DecidableEq

/-- Replacement for a run of `k` consecutive spaces under the regex
replacing runs of more than `maxN` spaces with exactly `maxN` spaces. -/
def flushSpaces (maxN k : Nat) : List Char :=
  List.replicate (if maxN + 1 ≤ k then maxN else k) ' '

/-- Collapse runs of more than `maxN` consecutive spaces down to `maxN`
(the effect of `text.replace(/ {maxN+1,}/g, ' '.repeat(maxN))`);
`k` counts the spaces of the run currently being scanned. -/
def collapseSpacesGo (maxN : Nat) : Nat → List Char → List Char
  | k, [] => flushSpaces maxN k
  | k, c :: rest =>
    if c = ' ' then collapseSpacesGo maxN (k + 1) rest
    else flushSpaces maxN k ++ c :: collapseSpacesGo maxN 0 rest

/-- `normalizeWhitespace`: tabs to single spaces (unless preserved), then
collapse long space runs. -/
def normalizeWhitespace (text : String) (options : WhitespaceOptions) : String :=
  let preserveTabs := options.preserveTabs.getD false
  let normalizeSpaces := options.normalizeSpaces.getD true
  let maxConsecutiveSpaces := options.maxConsecutiveSpaces.getD 2
  let result :=
    if preserveTabs then text
    else String.mk (text.data.map fun c => if c = '\t' then ' ' else c)
  if normalizeSpaces = true ∧ 0 < maxConsecutiveSpaces then
    String.mk (collapseSpacesGo maxConsecutiveSpaces 0 result.data)
  else result

/-- Options of `preprocessText`; absent keys are `none`. -/
structure PreprocessOptions where
  removeBOM : Option Bool
  normalizeLineBreaks : Option Bool
  normalizeWhitespace : Option Bool
  whitespaceOptions : Option WhitespaceOptions
deriving DecidableEq

/-- The empty options object `{}`. -/
def emptyWhitespaceOptions : WhitespaceOptions := ⟨none, none, none⟩

/-- The empty options object `{}`. -/
def emptyPreprocessOptions : PreprocessOptions := ⟨none, none, none, none⟩

/-- `preprocessText`: BOM removal, then line-break normalization, then
whitespace normalization, each step on by default. -/
def preprocessText (text : String) (options : PreprocessOptions) : String :=
  let shouldRemoveBOM := options.removeBOM.getD true
  let shouldNormalizeLineBreaks := options.normalizeLineBreaks.getD true
  let shouldNormalizeWhitespace := options.normalizeWhitespace.getD true
  let whitespaceOptions := options.whitespaceOptions.getD emptyWhitespaceOptions
  let result := text
  let result := if shouldRemoveBOM then removeBOM result else result
  let result := if shouldNormalizeLineBreaks then normalizeLineBreaks result else result
  let result := if shouldNormalizeWhitespace then normalizeWhitespace result whitespaceOptions
    else result
  result

/-- `splitIntoChars`: `[...text]`, one unit per Unicode code point. -/
def splitIntoChars (text : String) : List String :=
  text.data.map (fun c => String.mk [c])

end TextProcessor

/-!
Shared Levenshtein core.  `src/utils/levenshtein.ts` and
`src/utils/textProcessor.ts` contain two textually identical copies of the
DP-matrix construction and the backtrace loop (they differ only in whether
`optimizeOperations` is applied afterwards), so the matrix and the
backtrace are defined once here and used by both entry points.
-/

/-- Cell `dp[i][j]` of the DP matrix of `calculateLevenshtein`: row 0 and
column 0 hold the identity costs, and every other cell is
`str1[i-1] === str2[j-1] ? dp[i-1][j-1] : min(dp[i-1][j]+1, dp[i][j-1]+1, dp[i-1][j-1]+1)`
(the imperative loop materializes exactly this recurrence; `getD` reads
`str1[i-1]` and `str2[j-1]`, which the loop only accesses in range). -/
def dp (str1 str2 : List String) (i j : Nat) : Nat :=
  match i, j with
  | i, 0 => i
  | 0, j + 1 => j + 1
  | i + 1, j + 1 =>
    if str1.getD i ("") = str2.getD j ("") then dp str1 str2 i j
    else min (dp str1 str2 i (j + 1) + 1) (min (dp str1 str2 (i + 1) j + 1) (dp str1 str2 i j + 1))
termination_by i + j
decreasing_by all_goals omega

/-- The backtrace `while (i > 0 || j > 0)` loop of `calculateLevenshtein`,
producing operations in the order they are pushed (reverse document
order).  At a cell with `i > 0` and `j > 0` the loop tests, in order:
equal units (diagonal, nothing emitted), replace (`dp[i][j] == dp[i-1][j-1]+1`),
delete (`dp[i][j] == dp[i-1][j]+1`), insert (`dp[i][j] == dp[i][j-1]+1`).
When `j = 0` the delete condition `dp[i][0] == dp[i-1][0]+1` is identically
true, and when `i = 0` the insert condition is identically true, so those
rows take the delete/insert branch unconditionally.  The final `[]` of the
unequal case corresponds to no branch condition holding, which never
happens (see `dp_succ_succ_cases`); the JS loop would spin forever there. -/
def backtraceOps (str1 str2 : List String) (i j : Nat) : List LevenshteinOperation :=
  match i, j with
  | 0, 0 => []
  | i + 1, j + 1 =>
    if str1.getD i ("") = str2.getD j ("") then
      backtraceOps str1 str2 i j
    else if dp str1 str2 (i + 1) (j + 1) = dp str1 str2 i j + 1 then
      ⟨LevOpKind.replace, i, some (str1.getD i ("")), some (str2.getD j (""))⟩ ::
        backtraceOps str1 str2 i j
    else if dp str1 str2 (i + 1) (j + 1) = dp str1 str2 i (j + 1) + 1 then
      ⟨LevOpKind.delete, i, some (str1.getD i ("")), none⟩ :: backtraceOps str1 str2 i (j + 1)
    else if dp str1 str2 (i + 1) (j + 1) = dp str1 str2 (i + 1) j + 1 then
      ⟨LevOpKind.insert, i + 1, none, some (str2.getD j (""))⟩ :: backtraceOps str1 str2 (i + 1) j
    else []
  | i + 1, 0 =>
    ⟨LevOpKind.delete, i, some (str1.getD i ("")), none⟩ :: backtraceOps str1 str2 i 0
  | 0, j + 1 =>
    ⟨LevOpKind.insert, 0, none, some (str2.getD j (""))⟩ :: backtraceOps str1 str2 0 j
termination_by i + j
decreasing_by all_goals omega

namespace Levenshtein

/-- `LevenshteinOptions` from levenshtein.ts (`timeout?: number`). -/
structure LevenshteinOptions where
  timeout : Option Int
deriving DecidableEq

/-- The operation run of the inner `while` of `optimizeOperations`:
content accumulated over the maximal run of consecutive inserts at
`position` that starts the list. -/
def mergeRunContent (position : Nat) (content : String) :
    List LevenshteinOperation → String
  | [] => content
  | op :: rest =>
    if op.type = LevOpKind.insert ∧ op.position = position then
      mergeRunContent position (content ++ op.newChar.getD ("")) rest
    else content

/-- Remainder of the list after the maximal run of consecutive inserts at
`position` (the suffix starting at `nextIndex`). -/
def mergeRunRest (position : Nat) :
    List LevenshteinOperation → List LevenshteinOperation
  | [] => []
  | op :: rest =>
    if op.type = LevOpKind.insert ∧ op.position = position then mergeRunRest position rest
    else op :: rest

theorem mergeRunRest_length_le (position : Nat) (ops : List LevenshteinOperation) :
    (mergeRunRest position ops).length ≤ ops.length := by
  induction ops with
  | nil => simp [mergeRunRest]
  | cons op rest ih =>
    simp only [mergeRunRest]
    split
    · exact Nat.le_succ_of_le ih
    · simp

/-- Body of the `for` loop of `optimizeOperations`.  `prev` is the last
operation pushed onto `optimized` (the list head at guard time).  An
insert absorbs the following same-position insert run and, when the run is
immediately followed by a same-position replace, that replace's new
content as well; the source then re-visits the consumed replace at the
next iteration, where the `hasPrecedingInsert` guard drops it, which is
what consuming it here models.  A non-insert is dropped exactly when the
last pushed operation is an insert at the same position. -/
def optCore (prev : Option LevenshteinOperation) (ops : List LevenshteinOperation) :
    List LevenshteinOperation :=
  match ops with
  | [] => []
  | current :: rest =>
    if current.type = LevOpKind.insert then
      let mergedContent := mergeRunContent current.position (current.newChar.getD ("")) rest
      match hr : mergeRunRest current.position rest with
      | nextOp :: rem2 =>
        if nextOp.type = LevOpKind.replace ∧ nextOp.position = current.position then
          let newOp : LevenshteinOperation :=
            ⟨LevOpKind.insert, current.position, none,
              some (mergedContent ++ nextOp.newChar.getD (""))⟩
          newOp :: optCore (some newOp) rem2
        else
          let newOp : LevenshteinOperation :=
            ⟨LevOpKind.insert, current.position, none, some mergedContent⟩
          newOp :: optCore (some newOp) (nextOp :: rem2)
      | [] => [⟨LevOpKind.insert, current.position, none, some mergedContent⟩]
    else
      match prev with
      | some p =>
        if p.type = LevOpKind.insert ∧ p.position = current.position then optCore prev rest
        else current :: optCore (some current) rest
      | none => current :: optCore (some current) rest
termination_by ops.length
decreasing_by
  all_goals simp only [List.length_cons]
  · have h := mergeRunRest_length_le op.position rest
    rw [hr] at h
    simp only [List.length_cons] at h
    omega
  · have h := mergeRunRest_length_le op.position rest
    rw [hr] at h
    simp only [List.length_cons] at h
    omega
  all_goals omega

/-- `optimizeOperations` from levenshtein.ts. -/
def optimizeOperations (operations : List LevenshteinOperation) :
    List LevenshteinOperation :=
  optCore none operations

/-- `convertOperationsToDiffRecords` from levenshtein.ts. -/
def convertOperationsToDiffRecords (operations : List LevenshteinOperation) :
    List DiffRecord :=
  operations.map fun op =>
    match op.type with
    | LevOpKind.replace =>
      ⟨op.position, DiffRecordKind.modify, op.newChar.getD (""), op.oldChar⟩
    | LevOpKind.delete =>
      ⟨op.position, DiffRecordKind.delete, op.oldChar.getD (""), none⟩
    | LevOpKind.insert =>
      ⟨op.position, DiffRecordKind.add, op.newChar.getD (""), none⟩

/-- Pure result of `calculateLevenshtein` from levenshtein.ts (matrix,
backtrace, reverse, optimization pass); the timeout machinery is split
into `calculateLevenshteinT` below. -/
def calculateLevenshtein (str1 str2 : List String) : LevenshteinResult :=
  ⟨dp str1 str2 str1.length str2.length,
    optimizeOperations (backtraceOps str1 str2 str1.length str2.length).reverse⟩

/-- The `options.timeout || 5000` default of `calculateLevenshtein`:
an absent timeout and the falsy value 0 both become 5000; every other
value, including negative ones, is kept. -/
def effectiveTimeout (options : LevenshteinOptions) : Int :=
  match options.timeout with
  | none => 5000
  | some v => if v = 0 then 5000 else v

/-- Whether the per-row check `Date.now() - startTime > timeout` fires on
some outer-loop row `i ∈ [1, m]`; `elapsed i` is the elapsed wall-clock
time observed at the start of row `i`. -/
def timeoutFires (m : Nat) (timeout : Int) (elapsed : Nat → Nat) : Bool :=
  (List.range' 1 m).any fun i => timeout < (elapsed i : Int)

/-- `calculateLevenshtein` with its timeout behaviour: the throw of
`'Levenshtein计算超时'` when a row check fires, the full result otherwise. -/
def calculateLevenshteinT (str1 str2 : List String) (options : LevenshteinOptions)
    (elapsed : Nat → Nat) : Except String LevenshteinResult :=
  if timeoutFires str1.length (effectiveTimeout options) elapsed then
    Except.error ("Levenshtein计算超时")
  else
    Except.ok (calculateLevenshtein str1 str2)

/-- `validateLevenshteinOptions` from levenshtein.ts: flags a present
`timeout ≤ 0` as invalid. -/
def validateLevenshteinOptions (options : LevenshteinOptions) : Bool × List String :=
  let errors :=
    match options.timeout with
    | some v => if v ≤ 0 then [("超时时间必须大于0")] else []
    | none => []
  (errors.isEmpty, errors)

end Levenshtein

namespace TextProcessor

/-- The `calculateLevenshtein` copy in textProcessor.ts: identical matrix
and backtrace, but the reversed operation list is returned with no
optimization pass. -/
def calculateLevenshtein (str1 str2 : List String) : LevenshteinResult :=
  ⟨dp str1 str2 str1.length str2.length,
    (backtraceOps str1 str2 str1.length str2.length).reverse⟩

end TextProcessor

namespace Diff

/-- `DiffOptions` of the Levenshtein-based diff module; absent keys are
`none` and are filled from `DEFAULT_DIFF_OPTIONS` by the object spread. -/
structure DiffOptions where
  timeout : Option Int
  ignoreWhitespace : Option Bool
  ignoreCase : Option Bool
  precision : Option String
deriving DecidableEq

/-- The empty options object `{}` (every key absent). -/
def emptyDiffOptions : DiffOptions := ⟨none, none, none, none⟩

/-- Maximal runs of whitespace / non-whitespace characters, in order. -/
def groupRuns : List Char → List (List Char)
  | [] => []
  | c :: rest =>
    match groupRuns rest with
    | [] => [[c]]
    | [] :: gs => [c] :: gs
    | (d :: ds) :: gs =>
      if c.isWhitespace = d.isWhitespace then (c :: d :: ds) :: gs
      else [c] :: (d :: ds) :: gs

/-- `text.split(/(\s+)/)`: whitespace runs are retained as standalone
units; an empty piece appears before a leading run and after a trailing
run, and the empty string splits to `[""]`. -/
def splitRetainWhitespace (text : String) : List String :=
  match groupRuns text.data with
  | [] => [("")]
  | (c :: cs) :: gs =>
    let runs := ((c :: cs) :: gs).map String.mk
    let withLead := if c.isWhitespace then ("") :: runs else runs
    let lastWs :=
      match ((c :: cs) :: gs).getLast? with
      | some (d :: _) => d.isWhitespace
      | _ => false
    if lastWs then withLead ++ [("")] else withLead
  | [] :: gs => ([]: List String)

/-- `text.split(/(\n)/)`: newline units retained, empty pieces kept. -/
def splitRetainNewlines (text : String) : List String :=
  (text.splitOn ("\n")).intersperse ("\n")

/-- `getSplitFunction`: character → code-point split, word → whitespace-run
split, line → newline split, anything else falls through to the `default`
branch, which is the character split. -/
def getSplitFunction (precision : String) : String → List String :=
  if precision = "character" then TextProcessor.splitIntoChars
  else if precision = "word" then splitRetainWhitespace
  else if precision = "line" then splitRetainNewlines
  else TextProcessor.splitIntoChars

/-- `calculateSimilarity` of the Levenshtein-based diff module, over `ℚ`:
100 when both texts are empty, otherwise
`Math.round(Math.max(0, (1 - editDistance / maxLength) * 100) * 100) / 100`.
JS `Math.round` is `round` on `ℚ` (round half towards positive infinity);
JS measures `text.length` in UTF-16 code units, modelled here by the
code-point count, which agrees on all text without astral-plane
characters. -/
def calculateSimilarity (text1 text2 : String) (editDistance : Nat) : ℚ :=
  let maxLength : Nat := max text1.length text2.length
  if maxLength = 0 then 100
  else
    let similarity : ℚ := max 0 ((1 - (editDistance : ℚ) / (maxLength : ℚ)) * 100)
    (round (similarity * 100) : ℚ) / 100

/-- `validateDiffOptions`: a present `timeout ≤ 0` and a truthy precision
outside {character, word, line} are flagged (a present but empty precision
string is falsy in JS, so it is not checked). -/
def validateDiffOptions (options : DiffOptions) : Bool × List String :=
  let timeoutErrors :=
    match options.timeout with
    | some v => if v ≤ 0 then [("超时时间必须大于0")] else []
    | none => []
  let precisionErrors :=
    match options.precision with
    | some p =>
      if p = "" then []
      else if p = "character" ∨ p = "word" ∨ p = "line" then []
      else [("精度级别必须是 character、word 或 line")]
    | none => []
  let errors := timeoutErrors ++ precisionErrors
  (errors.isEmpty, errors)

/-- `calculateDiff` from the Levenshtein-based diff module: merge options
with the defaults, preprocess both texts, optionally lower-case, split by
precision, run `calculateLevenshtein`, convert the operations and compute
the similarity.  A timeout throw is caught and rethrown with the
`'差异计算失败: '` prefix.  `calculateDiff` performs no option validation
(`validateDiffOptions` is never invoked). -/
def calculateDiff (text1 text2 : String) (options : DiffOptions)
    (elapsed : Nat → Nat) : Except String DiffResult :=
  let finalTimeout : Int := options.timeout.getD 5000
  let finalIgnoreCase : Bool := options.ignoreCase.getD false
  let finalPrecision : String := options.precision.getD ("character")
  let processedText1 := TextProcessor.preprocessText text1 TextProcessor.emptyPreprocessOptions
  let processedText2 := TextProcessor.preprocessText text2 TextProcessor.emptyPreprocessOptions
  let compareText1 := if finalIgnoreCase then processedText1.toLower else processedText1
  let compareText2 := if finalIgnoreCase then processedText2.toLower else processedText2
  let chars1 := getSplitFunction finalPrecision compareText1
  let chars2 := getSplitFunction finalPrecision compareText2
  match Levenshtein.calculateLevenshteinT chars1 chars2 ⟨some finalTimeout⟩ elapsed with
  | Except.error msg => Except.error ("差异计算失败: " ++ msg)
  | Except.ok result =>
    Except.ok
      ⟨result.editDistance,
        Levenshtein.convertOperationsToDiffRecords result.operations,
        calculateSimilarity processedText1 processedText2 result.editDistance,
        processedText1, processedText2⟩

end Diff

/-!
Specification-side definitions.  These are not translations of source
code: `lev` and `EditSeq` formalize the reference Levenshtein definition
the claims compare the code against, `replay` formalizes the claims'
"apply each record at its recorded position, in position order"
procedure, and `similaritySpec` transcribes the spec's similarity formula.
-/

/-- Reference edit-distance recursion (units consumed from the front).
The min structure matches the matrix invariant cell formula. -/
def lev : List String → List String → Nat
  | [], t => t.length
  | a :: s, [] => (a :: s).length
  | a :: s, b :: t =>
    if a = b then lev s t
    else min (lev s (b :: t) + 1) (min (lev (a :: s) t + 1) (lev s t + 1))
termination_by s t => s.length + t.length
decreasing_by all_goals simp +arith

/-- An edit script of `k` single-unit operations transforming the first
sequence into the second: at each step the script may copy an equal unit,
replace a unit, delete a unit, or insert a unit. -/
inductive EditSeq : List String → List String → Nat → Prop where
  | nil : EditSeq [] [] 0
  | copy (a : String) {s t : List String} {k : Nat} :
      EditSeq s t k → EditSeq (a :: s) (a :: t) k
  | subst (a b : String) {s t : List String} {k : Nat} :
      EditSeq s t k → EditSeq (a :: s) (b :: t) (k + 1)
  | del (a : String) {s t : List String} {k : Nat} :
      EditSeq s t k → EditSeq (a :: s) t (k + 1)
  | ins (b : String) {s t : List String} {k : Nat} :
      EditSeq s t k → EditSeq s (b :: t) (k + 1)

/-- Concatenation of the units of `src` from index `a` (inclusive) to
index `b` (exclusive). -/
def joinSeg (src : List String) (a b : Nat) : String :=
  String.join ((src.drop a).take (b - a))

/-- Replay one diff record against source units `src`: copy the untouched
units between the cursor and the record's position, then apply the record
(`delete` skips one source unit, `modify` replaces one source unit by the
record's content, `add` emits the content consuming nothing).  The state
is (output so far, source cursor). -/
def applyRecord (src : List String) (st : String × Nat) (r : DiffRecord) : String × Nat :=
  match r.type with
  | DiffRecordKind.delete => (st.1 ++ joinSeg src st.2 r.position, r.position + 1)
  | DiffRecordKind.modify => (st.1 ++ joinSeg src st.2 r.position ++ r.content, r.position + 1)
  | DiffRecordKind.add => (st.1 ++ joinSeg src st.2 r.position ++ r.content, r.position)

/-- Replay a diff-record list against source units in list order (the
records carry non-decreasing positions), copying the untouched suffix at
the end. -/
def replay (src : List String) (records : List DiffRecord) : String :=
  let st := records.foldl (applyRecord src) ((""), 0)
  st.1 ++ String.join (src.drop st.2)

/-- Modelled from the spec: "Similarity =
`max(0, (1 - editDistance / max(len(text1), len(text2)))) * 100`, rounded
to two decimal places; defined as exactly 100 when both texts are empty".
Note the spec clamps before scaling by 100 where the code clamps after. -/
def similaritySpec (text1 text2 : String) (editDistance : Nat) : ℚ :=
  let maxLength : Nat := max text1.length text2.length
  if maxLength = 0 then 100
  else (round ((max 0 (1 - (editDistance : ℚ) / (maxLength : ℚ)) * 100) * 100) : ℚ) / 100

/-!
Row-iterative form of the DP matrix.  The source fills the matrix row by
row; `levFinalRow` mirrors that iteration so that concrete distances
evaluate in polynomial time, and `levFinalRow_getD` identifies its cells
with `dp`.
-/

/-- One sweep of the inner `for (j = 1; j <= n; j++)` loop: `x` is
`str1[i-1]`, `left` is the cell just computed on the current row, the
second argument walks the previous row, the third the target units. -/
def levRowAux (x : String) : Nat → List Nat → List String → List Nat
  | left, pPrev :: pCur :: ps, u :: us =>
    let v := if x = u then pPrev else min (pCur + 1) (min (left + 1) (pPrev + 1))
    v :: levRowAux x v (pCur :: ps) us
  | _, _, _ => []

/-- The outer `for (i = 1; i <= m; i++)` loop: fold the remaining source
units over the previous row. -/
def levRowsGo (str2 : List String) : List String → Nat → List Nat → List Nat
  | [], _, row => row
  | x :: xs, i, row => levRowsGo str2 xs (i + 1) ((i + 1) :: levRowAux x (i + 1) row str2)

/-- The final matrix row, starting from row 0 = `[0, 1, …, n]`. -/
def levFinalRow (str1 str2 : List String) : List Nat :=
  levRowsGo str2 str1 0 (List.range (str2.length + 1))

/-! Basic facts about the DP matrix. -/

theorem dp_i_zero (s t : List String) (i : Nat) : dp s t i 0 = i := by
  cases i <;> simp [dp]

theorem dp_zero_succ (s t : List String) (j : Nat) : dp s t 0 (j + 1) = j + 1 := by
  simp [dp]

theorem dp_zero_left (s t : List String) (j : Nat) : dp s t 0 j = j := by
  cases j with
  | zero => exact dp_i_zero s t 0
  | succ j => exact dp_zero_succ s t j

theorem dp_succ_succ (s t : List String) (i j : Nat) :
    dp s t (i + 1) (j + 1) =
      if s.getD i ("") = t.getD j ("") then dp s t i j
      else min (dp s t i (j + 1) + 1) (min (dp s t (i + 1) j + 1) (dp s t i j + 1)) := by
  rw [dp]

/-- In the unequal case at a cell with positive indices, at least one of
the three backtrace conditions holds (the min of the recurrence is
attained), so the backtrace loop always makes progress. -/
theorem dp_succ_succ_cases (s t : List String) (i j : Nat)
    (hne : ¬ s.getD i ("") = t.getD j ("")) :
    dp s t (i + 1) (j + 1) = dp s t i j + 1 ∨
      dp s t (i + 1) (j + 1) = dp s t i (j + 1) + 1 ∨
      dp s t (i + 1) (j + 1) = dp s t (i + 1) j + 1 := by
  have hd := dp_succ_succ s t i j
  rw [if_neg hne] at hd
  omega

/-- The number of operations emitted by the backtrace from cell `(i, j)`
equals the cell value `dp[i][j]` (each non-diagonal transition emits one
operation and costs one, each diagonal transition emits none and costs
nothing). -/
theorem backtraceOps_length (s t : List String) (i j : Nat) :
    (backtraceOps s t i j).length = dp s t i j := by
  induction i, j using backtraceOps.induct s t with
  | case1 => simp [backtraceOps, dp_i_zero]
  | case2 i j heq ih =>
    rw [backtraceOps, if_pos heq, dp_succ_succ, if_pos heq]
    exact ih
  | case3 i j hne h1 ih =>
    rw [backtraceOps, if_neg hne, if_pos h1]
    simp only [List.length_cons, ih, Nat.succ_eq_add_one]
    omega
  | case4 i j hne h1 h2 ih =>
    rw [backtraceOps, if_neg hne, if_neg h1, if_pos h2]
    simp only [List.length_cons, ih, Nat.succ_eq_add_one]
    omega
  | case5 i j hne h1 h2 h3 ih =>
    rw [backtraceOps, if_neg hne, if_neg h1, if_neg h2, if_pos h3]
    simp only [List.length_cons, ih, Nat.succ_eq_add_one]
    omega
  | case6 i j hne h1 h2 h3 =>
    rcases dp_succ_succ_cases s t i j hne with h | h | h <;> omega
  | case7 i ih =>
    rw [backtraceOps]
    simp only [List.length_cons, ih, dp_i_zero]
  | case8 j ih =>
    rw [backtraceOps]
    simp only [List.length_cons, ih, dp_zero_left, dp_zero_succ]

/-- C7: for all unit sequences `str1` and `str2`, the unoptimized
alignment result of textProcessor.ts's `calculateLevenshtein` satisfies
`editDistance == operations.length`: the returned distance `dp[m][n]`
equals the number of operations produced by the backtrace before any
optimization pass. -/
theorem editDistance_eq_operations_length (str1 str2 : List String) :
    (TextProcessor.calculateLevenshtein str1 str2).editDistance =
      (TextProcessor.calculateLevenshtein str1 str2).operations.length := by
  simp [TextProcessor.calculateLevenshtein, backtraceOps_length]

/-- C6: during backtrace, at every cell `(i+1, j+1)` whose units
`str1[i]` and `str2[j]` differ, at least one of the three transition
conditions holds, and the emitted operation is selected by testing, in
this fixed order, replace (`dp = diagonal + 1`), then delete
(`dp = up + 1`), then insert (`dp = left + 1`), the first match being
taken; when the units are equal the diagonal move is taken and no
operation is emitted — the only kind of step that emits nothing. -/
theorem backtraceOps_priority (s t : List String) (i j : Nat) :
    (s.getD i ("") = t.getD j ("") →
      backtraceOps s t (i + 1) (j + 1) = backtraceOps s t i j) ∧
    (s.getD i ("") ≠ t.getD j ("") →
      (dp s t (i + 1) (j + 1) = dp s t i j + 1 ∨
        dp s t (i + 1) (j + 1) = dp s t i (j + 1) + 1 ∨
        dp s t (i + 1) (j + 1) = dp s t (i + 1) j + 1) ∧
      backtraceOps s t (i + 1) (j + 1) =
        (if dp s t (i + 1) (j + 1) = dp s t i j + 1 then
          ⟨LevOpKind.replace, i, some (s.getD i ("")), some (t.getD j (""))⟩ ::
            backtraceOps s t i j
        else if dp s t (i + 1) (j + 1) = dp s t i (j + 1) + 1 then
          ⟨LevOpKind.delete, i, some (s.getD i ("")), none⟩ :: backtraceOps s t i (j + 1)
        else
          ⟨LevOpKind.insert, i + 1, none, some (t.getD j (""))⟩ ::
            backtraceOps s t (i + 1) j)) := by
  constructor
  · intro heq
    rw [backtraceOps, if_pos heq]
  · intro hne
    have hcases := dp_succ_succ_cases s t i j hne
    refine ⟨hcases, ?_⟩
    rw [backtraceOps, if_neg hne]
    by_cases h1 : dp s t (i + 1) (j + 1) = dp s t i j + 1
    · rw [if_pos h1, if_pos h1]
    · rw [if_neg h1, if_neg h1]
      by_cases h2 : dp s t (i + 1) (j + 1) = dp s t i (j + 1) + 1
      · rw [if_pos h2, if_pos h2]
      · rw [if_neg h2, if_neg h2]
        have h3 : dp s t (i + 1) (j + 1) = dp s t (i + 1) j + 1 := by
          rcases hcases with h | h | h <;> first | exact h | omega
        rw [if_pos h3]

/-- Witness for `backtraceOps_priority` at the concrete cell (1, 1) of
the comparison of `["a"]` against `["b"]`, discharging the
units-differ hypothesis. -/
theorem backtraceOps_priority_witness :
    (dp [("a")] [("b")] 1 1 = dp [("a")] [("b")] 0 0 + 1 ∨
      dp [("a")] [("b")] 1 1 = dp [("a")] [("b")] 0 1 + 1 ∨
      dp [("a")] [("b")] 1 1 = dp [("a")] [("b")] 1 0 + 1) ∧
    backtraceOps [("a")] [("b")] 1 1 =
      (if dp [("a")] [("b")] 1 1 = dp [("a")] [("b")] 0 0 + 1 then
        ⟨LevOpKind.replace, 0, some (List.getD [("a")] 0 ("")),
          some (List.getD [("b")] 0 (""))⟩ :: backtraceOps [("a")] [("b")] 0 0
      else if dp [("a")] [("b")] 1 1 = dp [("a")] [("b")] 0 1 + 1 then
        ⟨LevOpKind.delete, 0, some (List.getD [("a")] 0 ("")), none⟩ ::
          backtraceOps [("a")] [("b")] 0 1
      else
        ⟨LevOpKind.insert, 1, none, some (List.getD [("b")] 0 (""))⟩ ::
          backtraceOps [("a")] [("b")] 1 0) :=
  (backtraceOps_priority [("a")] [("b")] 0 0).2 (by decide)

/-! Facts used by the self-comparison claim. -/

theorem dp_self (s : List String) (i : Nat) : dp s s i i = 0 := by
  induction i with
  | zero => exact dp_i_zero s s 0
  | succ i ih => rw [dp_succ_succ, if_pos rfl]; exact ih

theorem backtraceOps_self (s : List String) (i : Nat) : backtraceOps s s i i = [] := by
  induction i with
  | zero => rw [backtraceOps]
  | succ i ih => rw [backtraceOps, if_pos rfl]; exact ih

theorem timeoutFires_zero_elapsed (m : Nat) (timeout : Int) (h : 0 ≤ timeout) :
    Levenshtein.timeoutFires m timeout (fun _ => 0) = false := by
  simp [Levenshtein.timeoutFires]
  intro i hi hi2
  omega

theorem getSplitFunction_character :
    Diff.getSplitFunction ("character") = TextProcessor.splitIntoChars := by
  unfold Diff.getSplitFunction
  rw [if_pos rfl]

theorem calculateSimilarity_self (p : String) : Diff.calculateSimilarity p p 0 = 100 := by
  unfold Diff.calculateSimilarity
  simp only [max_self]
  by_cases hp : p.length = 0
  · simp [hp]
  · simp only [hp, if_neg hp, Nat.cast_zero, zero_div, sub_zero, one_mul]
    norm_num [round_eq]

theorem calculateLevenshtein_self (s : List String) :
    Levenshtein.calculateLevenshtein s s = ⟨0, []⟩ := by
  unfold Levenshtein.calculateLevenshtein
  rw [dp_self, backtraceOps_self]
  simp [Levenshtein.optimizeOperations, Levenshtein.optCore]

/-- C8: for every text `A`, `computeDiff(A, A)` (default options, on a run
whose row clock reads 0, so no timeout fires) yields edit distance 0, an
empty diff-record list, and similarity 100; both returned texts are the
preprocessed `A`. -/
theorem calculateDiff_self (A : String) :
    Diff.calculateDiff A A Diff.emptyDiffOptions (fun _ => 0) =
      Except.ok ⟨0, [], 100,
        TextProcessor.preprocessText A TextProcessor.emptyPreprocessOptions,
        TextProcessor.preprocessText A TextProcessor.emptyPreprocessOptions⟩ := by
  unfold Diff.calculateDiff
  simp only [Diff.emptyDiffOptions, Option.getD_none, getSplitFunction_character,
    Levenshtein.calculateLevenshteinT, Levenshtein.effectiveTimeout, ite_self,
    Bool.false_eq_true, if_false]
  rw [timeoutFires_zero_elapsed _ _ (by decide)]
  simp [calculateLevenshtein_self, Levenshtein.convertOperationsToDiffRecords,
    calculateSimilarity_self]

/-! Similarity: agreement with the spec formula, and bounds. -/

theorem calculateSimilarity_eq_spec (text1 text2 : String) (d : Nat) :
    Diff.calculateSimilarity text1 text2 d = similaritySpec text1 text2 d := by
  unfold Diff.calculateSimilarity similaritySpec
  by_cases h : max text1.length text2.length = 0
  · simp [h]
  · simp only [h, if_neg h, if_false]
    nth_rewrite 2 [max_mul_of_nonneg _ _ (by norm_num : (0:ℚ) ≤ 100)]
    rw [zero_mul]

theorem calculateSimilarity_bounds (text1 text2 : String) (d : Nat) :
    0 ≤ Diff.calculateSimilarity text1 text2 d ∧
      Diff.calculateSimilarity text1 text2 d ≤ 100 := by
  unfold Diff.calculateSimilarity
  by_cases h : max text1.length text2.length = 0
  · simp [h]
  · simp only [h, if_neg h, if_false]
    have hMpos : (0:ℚ) < ((max text1.length text2.length : ℕ) : ℚ) := by
      exact_mod_cast Nat.pos_of_ne_zero h
    set q : ℚ := max 0 ((1 - (d : ℚ) / ((max text1.length text2.length : ℕ) : ℚ)) * 100)
      with hq
    have hq0 : 0 ≤ q := le_max_left _ _
    have hq100 : q ≤ 100 := by
      apply max_le (by norm_num)
      have hd : 0 ≤ (d : ℚ) / ((max text1.length text2.length : ℕ) : ℚ) :=
        div_nonneg (by positivity) (le_of_lt hMpos)
      nlinarith
    have hr0 : (0 : ℤ) ≤ round (q * 100) := by
      rw [round_eq]
      apply Int.floor_nonneg.mpr
      nlinarith
    have hr1 : round (q * 100) ≤ 10000 := by
      rw [round_eq]
      have hle : (q * 100 + 1 / 2 : ℚ) ≤ 10000 + 1 / 2 := by nlinarith
      calc ⌊(q * 100 + 1 / 2 : ℚ)⌋ ≤ ⌊(10000 + 1 / 2 : ℚ)⌋ := Int.floor_le_floor hle
        _ = 10000 := by norm_num [Int.floor_eq_iff]
    constructor
    · exact div_nonneg (by exact_mod_cast hr0) (by norm_num)
    · rw [div_le_iff₀ (by norm_num : (0:ℚ) < 100)]
      calc ((round (q * 100) : ℤ) : ℚ) ≤ ((10000 : ℤ) : ℚ) := by exact_mod_cast hr1
        _ = 100 * 100 := by norm_num

/-- C3: the similarity returned by `calculateSimilarity` equals the spec's
formula `max(0, (1 - editDistance / max(len(text1), len(text2)))) * 100`
rounded to two decimal places (the code clamps after scaling by 100, the
spec before — the two agree), is exactly 100 when both texts are empty,
and lies in [0, 100] for every input. -/
theorem calculateSimilarity_spec (text1 text2 : String) (d : Nat) :
    Diff.calculateSimilarity text1 text2 d = similaritySpec text1 text2 d ∧
    (text1 = "" → text2 = "" → Diff.calculateSimilarity text1 text2 d = 100) ∧
    0 ≤ Diff.calculateSimilarity text1 text2 d ∧
    Diff.calculateSimilarity text1 text2 d ≤ 100 := by
  refine ⟨calculateSimilarity_eq_spec text1 text2 d, ?_,
    calculateSimilarity_bounds text1 text2 d⟩
  intro h1 h2
  subst h1
  subst h2
  simp [Diff.calculateSimilarity]

/-- Witness for `calculateSimilarity_spec`: both texts empty, edit
distance 0, similarity exactly 100. -/
theorem calculateSimilarity_spec_witness : Diff.calculateSimilarity ("") ("") 0 = 100 :=
  (calculateSimilarity_spec ("") ("") 0).2.1 rfl rfl

/-! Concrete runs of `calculateDiff` and `calculateLevenshteinT`. -/

/-- C5 (counterexample): `computeDiff("abc", "")` with default options
returns edit distance 3 and similarity 0 as claimed, but its record list
is three single-character delete records at positions 0, 1, 2 — not a
single delete record with content "abc" at position 0 (the optimizer
merges only inserts, never deletes). -/
theorem calculateDiff_abc_empty_counterexample :
    Diff.calculateDiff ("abc") ("") Diff.emptyDiffOptions (fun _ => 0) =
      Except.ok ⟨3,
        [⟨0, DiffRecordKind.delete, ("a"), none⟩, ⟨1, DiffRecordKind.delete, ("b"), none⟩,
          ⟨2, DiffRecordKind.delete, ("c"), none⟩], 0, ("abc"), ("")⟩ ∧
    [(⟨0, DiffRecordKind.delete, ("a"), none⟩ : DiffRecord),
      ⟨1, DiffRecordKind.delete, ("b"), none⟩, ⟨2, DiffRecordKind.delete, ("c"), none⟩] ≠
      [⟨0, DiffRecordKind.delete, ("abc"), none⟩] := by
  constructor
  · simp [Diff.calculateDiff, Diff.emptyDiffOptions, Diff.getSplitFunction,
      TextProcessor.preprocessText, TextProcessor.emptyPreprocessOptions,
      TextProcessor.removeBOM, TextProcessor.normalizeLineBreaks, TextProcessor.replaceCRLF,
      TextProcessor.normalizeWhitespace, TextProcessor.emptyWhitespaceOptions,
      TextProcessor.collapseSpacesGo, TextProcessor.flushSpaces,
      TextProcessor.splitIntoChars,
      Levenshtein.calculateLevenshteinT, Levenshtein.effectiveTimeout,
      Levenshtein.timeoutFires, Levenshtein.calculateLevenshtein, dp, backtraceOps,
      Levenshtein.optimizeOperations, Levenshtein.optCore, Levenshtein.mergeRunContent,
      Levenshtein.mergeRunRest, Levenshtein.convertOperationsToDiffRecords,
      Diff.calculateSimilarity]
    have h3 : ("abc").length = 3 := rfl
    rw [h3]
    norm_num [round_eq]
  · decide

/-- C5 (amended): `computeDiff("abc", "")` with default options returns
edit distance 3, three delete records — "a" at 0, "b" at 1, "c" at 2 —
and similarity 0. -/
theorem calculateDiff_abc_empty :
    Diff.calculateDiff ("abc") ("") Diff.emptyDiffOptions (fun _ => 0) =
      Except.ok ⟨3,
        [⟨0, DiffRecordKind.delete, ("a"), none⟩, ⟨1, DiffRecordKind.delete, ("b"), none⟩,
          ⟨2, DiffRecordKind.delete, ("c"), none⟩], 0, ("abc"), ("")⟩ := by
  simp [Diff.calculateDiff, Diff.emptyDiffOptions, Diff.getSplitFunction,
    TextProcessor.preprocessText, TextProcessor.emptyPreprocessOptions,
    TextProcessor.removeBOM, TextProcessor.normalizeLineBreaks, TextProcessor.replaceCRLF,
    TextProcessor.normalizeWhitespace, TextProcessor.emptyWhitespaceOptions,
    TextProcessor.collapseSpacesGo, TextProcessor.flushSpaces,
    TextProcessor.splitIntoChars,
    Levenshtein.calculateLevenshteinT, Levenshtein.effectiveTimeout,
    Levenshtein.timeoutFires, Levenshtein.calculateLevenshtein, dp, backtraceOps,
    Levenshtein.optimizeOperations, Levenshtein.optCore, Levenshtein.mergeRunContent,
    Levenshtein.mergeRunRest, Levenshtein.convertOperationsToDiffRecords,
    Diff.calculateSimilarity]
  have h3 : ("abc").length = 3 := rfl
  rw [h3]
  norm_num [round_eq]

/-- C9 (counterexample): with `timeout = -1` (an invalid configuration)
`calculateDiff("a", "b")` does not fail with a configuration error raised
before computation — the first matrix row's timeout check fires and the
run fails with the mid-algorithm timeout message; and with the invalid
precision `"bogus"` the computation does not fail at all, silently
falling back to character splitting — even though `validateDiffOptions`
classifies both options objects as invalid. -/
theorem calculateDiff_validation_counterexample :
    Diff.calculateDiff ("a") ("b") ⟨some (-1), none, none, none⟩ (fun _ => 0) =
      Except.error ("差异计算失败: Levenshtein计算超时") ∧
    Diff.calculateDiff ("a") ("b") ⟨none, none, none, some ("bogus")⟩ (fun _ => 0) =
      Except.ok ⟨1, [⟨0, DiffRecordKind.modify, ("b"), some ("a")⟩], 0, ("a"), ("b")⟩ ∧
    (Diff.validateDiffOptions ⟨some (-1), none, none, none⟩).1 = false ∧
    (Diff.validateDiffOptions ⟨none, none, none, some ("bogus")⟩).1 = false := by
  refine ⟨?_, ?_, by decide, by decide⟩
  · simp [Diff.calculateDiff, Diff.getSplitFunction,
      TextProcessor.preprocessText, TextProcessor.emptyPreprocessOptions,
      TextProcessor.removeBOM, TextProcessor.normalizeLineBreaks, TextProcessor.replaceCRLF,
      TextProcessor.normalizeWhitespace, TextProcessor.emptyWhitespaceOptions,
      TextProcessor.collapseSpacesGo, TextProcessor.flushSpaces,
      TextProcessor.splitIntoChars,
      Levenshtein.calculateLevenshteinT, Levenshtein.effectiveTimeout,
      Levenshtein.timeoutFires]
  · simp [Diff.calculateDiff, Diff.getSplitFunction,
      TextProcessor.preprocessText, TextProcessor.emptyPreprocessOptions,
      TextProcessor.removeBOM, TextProcessor.normalizeLineBreaks, TextProcessor.replaceCRLF,
      TextProcessor.normalizeWhitespace, TextProcessor.emptyWhitespaceOptions,
      TextProcessor.collapseSpacesGo, TextProcessor.flushSpaces,
      TextProcessor.splitIntoChars,
      Levenshtein.calculateLevenshteinT, Levenshtein.effectiveTimeout,
      Levenshtein.timeoutFires, Levenshtein.calculateLevenshtein, dp, backtraceOps,
      Levenshtein.optimizeOperations, Levenshtein.optCore, Levenshtein.mergeRunContent,
      Levenshtein.mergeRunRest, Levenshtein.convertOperationsToDiffRecords,
      Diff.calculateSimilarity]
    have h1 : ("a").length = 1 := rfl
    have h2 : ("b").length = 1 := rfl
    rw [h1, h2]
    norm_num [round_eq]

/-- C9 (amended): `validateDiffOptions` flags `timeout ≤ 0` and a
non-empty precision outside {character, word, line} as invalid, but
`calculateDiff` never invokes it: a timeout of 0 is replaced by the 5000
default inside `calculateLevenshtein`; a negative timeout makes the
timeout check fire on the first row whenever the first unit sequence is
non-empty, so the run fails mid-algorithm with the timeout error; and an
unrecognized precision silently falls back to character splitting, the
computation proceeding as if `"character"` had been requested. -/
theorem calculateDiff_no_validation :
    (∀ v : Int, v ≤ 0 →
      (Diff.validateDiffOptions ⟨some v, none, none, none⟩).1 = false) ∧
    (∀ p : String, p ≠ ("") → p ≠ ("character") → p ≠ ("word") → p ≠ ("line") →
      (Diff.validateDiffOptions ⟨none, none, none, some p⟩).1 = false) ∧
    (∀ (s t : List String) (elapsed : Nat → Nat),
      Levenshtein.calculateLevenshteinT s t ⟨some 0⟩ elapsed =
        Levenshtein.calculateLevenshteinT s t ⟨some 5000⟩ elapsed) ∧
    (∀ (v : Int) (s t : List String) (elapsed : Nat → Nat), v < 0 → s ≠ [] →
      Levenshtein.calculateLevenshteinT s t ⟨some v⟩ elapsed =
        Except.error ("Levenshtein计算超时")) ∧
    (∀ (text1 text2 : String) (elapsed : Nat → Nat),
      Diff.calculateDiff text1 text2 ⟨none, none, none, some ("bogus")⟩ elapsed =
        Diff.calculateDiff text1 text2 ⟨none, none, none, some ("character")⟩ elapsed) := by
  refine ⟨?_, ?_, ?_, ?_, ?_⟩
  · intro v hv
    simp [Diff.validateDiffOptions]
    omega
  · intro p h0 h1 h2 h3
    simp [Diff.validateDiffOptions, h0, h1, h2, h3]
  · intro s t elapsed
    simp [Levenshtein.calculateLevenshteinT, Levenshtein.effectiveTimeout]
  · intro v s t elapsed hv hs
    have hm : 0 < s.length := List.length_pos.mpr hs
    have hfires : Levenshtein.timeoutFires s.length (Levenshtein.effectiveTimeout ⟨some v⟩)
        elapsed = true := by
      have hv0 : v ≠ 0 := by omega
      simp only [Levenshtein.effectiveTimeout, if_neg hv0]
      simp only [Levenshtein.timeoutFires, List.any_eq_true]
      refine ⟨1, ?_, ?_⟩
      · simp [List.mem_range']
        omega
      · simp
        omega
    simp [Levenshtein.calculateLevenshteinT, hfires]
  · intro text1 text2 elapsed
    have hsplit : Diff.getSplitFunction ("bogus") = Diff.getSplitFunction ("character") := by
      simp [Diff.getSplitFunction]
    simp only [Diff.calculateDiff, Option.getD_some, hsplit]

/-- Witness for `calculateDiff_no_validation`, discharging its hypotheses
at concrete values: timeout -1 is flagged invalid, precision "bogus" is
flagged invalid, and a negative-timeout run on a non-empty first sequence
fails with the timeout error. -/
theorem calculateDiff_no_validation_witness :
    (Diff.validateDiffOptions ⟨some (-1), none, none, none⟩).1 = false ∧
    (Diff.validateDiffOptions ⟨none, none, none, some ("bogus")⟩).1 = false ∧
    Levenshtein.calculateLevenshteinT [("a")] [("b")] ⟨some (-1)⟩ (fun _ => 0) =
      Except.error ("Levenshtein计算超时") :=
  ⟨calculateDiff_no_validation.1 (-1) (by decide),
    calculateDiff_no_validation.2.1 ("bogus") (by decide) (by decide) (by decide) (by decide),
    calculateDiff_no_validation.2.2.2.1 (-1) [("a")] [("b")] (fun _ => 0) (by decide)
      (by decide)⟩

/-- C10: a `timeout` of 0 passed to `calculateLevenshtein` is silently
replaced by the default budget of 5000 ms (`options.timeout || 5000`), so
the call behaves exactly like one with timeout 5000 — it neither rejects
the configuration nor times out immediately (a concrete run succeeds) —
even though `validateLevenshteinOptions` classifies any timeout ≤ 0 as
invalid. -/
theorem timeout_zero_default :
    Levenshtein.effectiveTimeout ⟨some 0⟩ = 5000 ∧
    (∀ (s t : List String) (elapsed : Nat → Nat),
      Levenshtein.calculateLevenshteinT s t ⟨some 0⟩ elapsed =
        Levenshtein.calculateLevenshteinT s t ⟨some 5000⟩ elapsed) ∧
    (Levenshtein.validateLevenshteinOptions ⟨some 0⟩).1 = false ∧
    Levenshtein.calculateLevenshteinT [("a")] [("b")] ⟨some 0⟩ (fun _ => 0) =
      Except.ok ⟨1, [⟨LevOpKind.replace, 0, some ("a"), some ("b")⟩]⟩ := by
  refine ⟨by decide, ?_, by decide, ?_⟩
  · intro s t elapsed
    simp [Levenshtein.calculateLevenshteinT, Levenshtein.effectiveTimeout]
  · simp [Levenshtein.calculateLevenshteinT, Levenshtein.effectiveTimeout,
      Levenshtein.timeoutFires, Levenshtein.calculateLevenshtein, dp, backtraceOps,
      Levenshtein.optimizeOperations, Levenshtein.optCore, Levenshtein.mergeRunContent,
      Levenshtein.mergeRunRest]

namespace Levenshtein

/-- Shape of every insert operation the backtrace and the optimizer
produce: no old content and some new content. -/
def InsertShapeOK (op : LevenshteinOperation) : Prop :=
  op.type = LevOpKind.insert → (op.oldChar = none ∧ op.newChar.isSome = true)

/-- No insert operation is immediately followed by another operation at
the same position. -/
def NoImmediateCollision (ops : List LevenshteinOperation) : Prop :=
  List.Chain' (fun x y => x.type = LevOpKind.insert → y.position ≠ x.position) ops

theorem mergeRunRest_no_collide (P : Nat) (ops : List LevenshteinOperation)
    (h : ∀ o ∈ ops.head?, ¬(o.type = LevOpKind.insert ∧ o.position = P)) :
    mergeRunRest P ops = ops := by
  cases ops with
  | nil => rfl
  | cons o rest =>
    rw [mergeRunRest, if_neg (h o (by simp))]

theorem mergeRunContent_no_collide (P : Nat) (c : String) (ops : List LevenshteinOperation)
    (h : ∀ o ∈ ops.head?, ¬(o.type = LevOpKind.insert ∧ o.position = P)) :
    mergeRunContent P c ops = c := by
  cases ops with
  | nil => rfl
  | cons o rest =>
    rw [mergeRunContent, if_neg (h o (by simp))]

/-- When nothing after an insert collides with its position, the insert's
run is just itself: it is re-emitted (in normal form) and scanning
continues on the rest. -/
theorem optCore_cons_of_insert (prev : Option LevenshteinOperation)
    (current : LevenshteinOperation) (rest : List LevenshteinOperation)
    (hins : current.type = LevOpKind.insert)
    (hnc : ∀ o ∈ rest.head?, o.position ≠ current.position) :
    optCore prev (current :: rest) =
      ⟨LevOpKind.insert, current.position, none, some (current.newChar.getD (""))⟩ ::
        optCore (some ⟨LevOpKind.insert, current.position, none,
          some (current.newChar.getD (""))⟩) rest := by
  have hnc2 : ∀ o ∈ rest.head?, ¬(o.type = LevOpKind.insert ∧ o.position = current.position) :=
    fun o ho hco => hnc o ho hco.2
  have hrest := mergeRunRest_no_collide current.position rest hnc2
  have hcont := mergeRunContent_no_collide current.position (current.newChar.getD (""))
    rest hnc2
  cases prev with
  | none =>
    rw [optCore.eq_3, if_pos hins]
    simp only [hcont]
    split
    · rename_i nextOp rem2 heq
      rw [hrest] at heq
      subst heq
      rw [if_neg]
      intro hco
      exact hnc nextOp (by simp) hco.2
    · rename_i heq
      rw [hrest] at heq
      subst heq
      rw [optCore.eq_1]
  | some p =>
    rw [optCore.eq_2, if_pos hins]
    simp only [hcont]
    split
    · rename_i nextOp rem2 heq
      rw [hrest] at heq
      subst heq
      rw [if_neg]
      intro hco
      exact hnc nextOp (by simp) hco.2
    · rename_i heq
      rw [hrest] at heq
      subst heq
      rw [optCore.eq_1]

/-- A non-insert whose position differs from the last emitted insert (if
any) is emitted as-is. -/
theorem optCore_cons_of_not_insert (prev : Option LevenshteinOperation)
    (current : LevenshteinOperation) (rest : List LevenshteinOperation)
    (hnins : ¬ current.type = LevOpKind.insert)
    (hprev : ∀ p, prev = some p → ¬(p.type = LevOpKind.insert ∧ p.position = current.position)) :
    optCore prev (current :: rest) = current :: optCore (some current) rest := by
  cases prev with
  | none => rw [optCore.eq_3, if_neg hnins]
  | some p => rw [optCore.eq_2, if_neg hnins, if_neg (hprev p rfl)]

/-- The optimizer scan fixes every collision-free, well-shaped list. -/
theorem optCore_eq_self (ops : List LevenshteinOperation) :
    ∀ (prev : Option LevenshteinOperation),
    (∀ op ∈ ops, InsertShapeOK op) →
    NoImmediateCollision ops →
    (∀ p, prev = some p → p.type = LevOpKind.insert →
      ∀ o ∈ ops.head?, o.position ≠ p.position) →
    optCore prev ops = ops := by
  induction ops with
  | nil => intro prev _ _ _; rw [optCore.eq_1]
  | cons current rest ih =>
    intro prev hshape hchain hprev
    have hchain' : NoImmediateCollision rest := (List.chain'_cons'.mp hchain).2
    have hshape' : ∀ op ∈ rest, InsertShapeOK op := fun op hop => hshape op (by simp [hop])
    by_cases hins : current.type = LevOpKind.insert
    · have hnext : ∀ o ∈ rest.head?, o.position ≠ current.position := by
        intro o ho
        exact (List.chain'_cons'.mp hchain).1 o ho hins
      obtain ⟨hold, hsome⟩ := hshape current (by simp) hins
      obtain ⟨c, hc⟩ := Option.isSome_iff_exists.mp hsome
      have hcur : (⟨LevOpKind.insert, current.position, none,
          some (current.newChar.getD (""))⟩ : LevenshteinOperation) = current := by
        cases current with
        | mk ty pos oc nc =>
          simp only at hins hold hc ⊢
          simp [hins, hold, hc]
      rw [optCore_cons_of_insert prev current rest hins hnext, hcur]
      congr 1
      apply ih (some current) hshape' hchain'
      intro p hp hpins o ho
      injection hp with hp2
      rw [← hp2]
      exact hnext o ho
    · rw [optCore_cons_of_not_insert prev current rest hins]
      · congr 1
        apply ih (some current) hshape' hchain'
        intro p hp hpins o ho
        injection hp with hp2
        rw [← hp2] at hpins
        exact absurd hpins hins
      · intro p hp hco
        exact hprev p hp hco.1 current (by simp) hco.2.symm

end Levenshtein

/-- C4 (amended): `optimizeOperations` is a pure, deterministic function
of the operation sequence and is idempotent on every operation list in
which each insert carries new content and no old content and no insert is
immediately followed by another operation at the same position (it fixes
such lists outright) — but it is not idempotent on arbitrary operation
lists, see `optimizeOperations_not_idempotent`. -/
theorem optimizeOperations_idempotent_of_normalized (ops : List LevenshteinOperation)
    (hshape : ∀ op ∈ ops, Levenshtein.InsertShapeOK op)
    (hchain : Levenshtein.NoImmediateCollision ops) :
    Levenshtein.optimizeOperations (Levenshtein.optimizeOperations ops) =
      Levenshtein.optimizeOperations ops := by
  have h1 : Levenshtein.optimizeOperations ops = ops :=
    Levenshtein.optCore_eq_self ops none hshape hchain (by simp)
  rw [h1]
  exact h1

/-- C4 (counterexample): on `[insert "a"@0, delete "x"@0, insert "b"@0]`
the first optimizer pass drops the delete (the guard sees the emitted
insert at the same position), leaving two adjacent same-position inserts,
which a second pass merges — so `optimize(optimize(ops)) ≠ optimize(ops)`
and the optimizer is not idempotent on every operation list. -/
theorem optimizeOperations_not_idempotent :
    Levenshtein.optimizeOperations (Levenshtein.optimizeOperations
      [⟨LevOpKind.insert, 0, none, some ("a")⟩, ⟨LevOpKind.delete, 0, some ("x"), none⟩,
        ⟨LevOpKind.insert, 0, none, some ("b")⟩]) ≠
    Levenshtein.optimizeOperations
      [⟨LevOpKind.insert, 0, none, some ("a")⟩, ⟨LevOpKind.delete, 0, some ("x"), none⟩,
        ⟨LevOpKind.insert, 0, none, some ("b")⟩] := by
  have h1 : Levenshtein.optimizeOperations
      [⟨LevOpKind.insert, 0, none, some ("a")⟩, ⟨LevOpKind.delete, 0, some ("x"), none⟩,
        ⟨LevOpKind.insert, 0, none, some ("b")⟩] =
      [⟨LevOpKind.insert, 0, none, some ("a")⟩, ⟨LevOpKind.insert, 0, none, some ("b")⟩] := by
    simp [Levenshtein.optimizeOperations, Levenshtein.optCore, Levenshtein.mergeRunContent,
      Levenshtein.mergeRunRest]
  have h2 : Levenshtein.optimizeOperations
      [⟨LevOpKind.insert, 0, none, some ("a")⟩, ⟨LevOpKind.insert, 0, none, some ("b")⟩] =
      [⟨LevOpKind.insert, 0, none, some ("ab")⟩] := by
    simp [Levenshtein.optimizeOperations, Levenshtein.optCore, Levenshtein.mergeRunContent,
      Levenshtein.mergeRunRest]
  rw [h1, h2]
  decide

/-- Witness for `optimizeOperations_idempotent_of_normalized` at a
concrete normalized list. -/
theorem optimizeOperations_idempotent_witness :
    Levenshtein.optimizeOperations (Levenshtein.optimizeOperations
      [⟨LevOpKind.insert, 0, none, some ("a")⟩, ⟨LevOpKind.delete, 1, some ("x"), none⟩]) =
      Levenshtein.optimizeOperations
        [⟨LevOpKind.insert, 0, none, some ("a")⟩, ⟨LevOpKind.delete, 1, some ("x"), none⟩] :=
  optimizeOperations_idempotent_of_normalized _
    (by
      intro op hop
      simp only [List.mem_cons, List.mem_singleton] at hop
      rcases hop with h | h | h
      · subst h; intro hins; simp
      · subst h; intro hins; simp at hins
      · simp at h)
    (by simp [Levenshtein.NoImmediateCollision, List.chain'_cons])

/-! Replaying diff records: string-join helpers. -/

theorem join_nil : String.join [] = ("") := rfl

theorem join_cons (a : String) (l : List String) :
    String.join (a :: l) = a ++ String.join l := by
  apply String.ext
  simp [String.join_eq]

theorem join_append_strings (l1 l2 : List String) :
    String.join (l1 ++ l2) = String.join l1 ++ String.join l2 := by
  apply String.ext
  simp [String.join_eq]

theorem join_singleton (a : String) : String.join [a] = a := by
  rw [join_cons, join_nil, String.append_empty]

theorem joinSeg_refl (s : List String) (a : Nat) : joinSeg s a a = ("") := by
  simp [joinSeg]
  rfl

theorem joinSeg_zero (s : List String) (b : Nat) :
    joinSeg s 0 b = String.join (s.take b) := by
  simp [joinSeg]

theorem joinSeg_extend (s : List String) (a i : Nat) (ha : a ≤ i) (hi : i < s.length) :
    joinSeg s a i ++ s.getD i ("") = joinSeg s a (i + 1) := by
  unfold joinSeg
  have h1 : i + 1 - a = (i - a) + 1 := by omega
  have h2 : (s.drop a)[i - a]? = some s[i] := by
    rw [List.getElem?_drop]
    have h3 : a + (i - a) = i := by omega
    rw [h3, List.getElem?_eq_getElem hi]
  rw [h1, List.take_succ, h2, Option.toList_some, join_append_strings, join_singleton]
  congr 1
  exact List.getD_eq_getElem s ("") hi

theorem join_take_succ (t : List String) (j : Nat) (hj : j < t.length) :
    String.join (t.take (j + 1)) = String.join (t.take j) ++ t.getD j ("") := by
  rw [← joinSeg_zero, ← joinSeg_zero, joinSeg_extend t 0 j (Nat.zero_le j) hj]

/-- State of the replay fold after processing the records of the
backtrace from cell `(i, j)`. -/
def replaySt (s t : List String) (i j : Nat) : String × Nat :=
  (Levenshtein.convertOperationsToDiffRecords ((backtraceOps s t i j).reverse)).foldl
    (applyRecord s) ((""), 0)

theorem replaySt_cons (s t : List String) (i j i2 j2 : Nat) (op : LevenshteinOperation)
    (h : backtraceOps s t i j = op :: backtraceOps s t i2 j2) :
    replaySt s t i j =
      (Levenshtein.convertOperationsToDiffRecords [op]).foldl (applyRecord s)
        (replaySt s t i2 j2) := by
  unfold replaySt
  rw [h, List.reverse_cons]
  unfold Levenshtein.convertOperationsToDiffRecords
  rw [List.map_append, List.foldl_append]

/-- Invariant of the replay fold along the backtrace path: the source
cursor never passes `i`, and the output followed by the untouched source
units from the cursor up to `i` spells exactly the first `j` target
units. -/
theorem replaySt_invariant (s t : List String) (i j : Nat) :
    i ≤ s.length → j ≤ t.length →
    (replaySt s t i j).2 ≤ i ∧
    (replaySt s t i j).1 ++ joinSeg s (replaySt s t i j).2 i = String.join (t.take j) := by
  induction i, j using backtraceOps.induct s t with
  | case1 =>
    intro _ _
    constructor
    · simp [replaySt, backtraceOps, Levenshtein.convertOperationsToDiffRecords]
    · simp [replaySt, backtraceOps, Levenshtein.convertOperationsToDiffRecords,
        joinSeg_refl, join_nil]
  | case2 i j heq ih =>
    intro hi hj
    obtain ⟨ih1, ih2⟩ := ih (by omega) (by omega)
    have hst : replaySt s t (i + 1) (j + 1) = replaySt s t i j := by
      unfold replaySt
      rw [backtraceOps, if_pos heq]
    rw [hst]
    refine ⟨by omega, ?_⟩
    rw [← joinSeg_extend s (replaySt s t i j).2 i ih1 (by omega), ← String.append_assoc,
      ih2, heq, ← join_take_succ t j (by omega)]
  | case3 i j hne h1 ih =>
    intro hi hj
    obtain ⟨ih1, ih2⟩ := ih (by omega) (by omega)
    have hb : backtraceOps s t (i + 1) (j + 1) =
        ⟨LevOpKind.replace, i, some (s.getD i ("")), some (t.getD j (""))⟩ ::
          backtraceOps s t i j := by
      rw [backtraceOps, if_neg hne, if_pos h1]
    have hrec := replaySt_cons s t (i + 1) (j + 1) i j _ hb
    simp only [Levenshtein.convertOperationsToDiffRecords, List.map_cons, List.map_nil,
      List.foldl_cons, List.foldl_nil, applyRecord, Option.getD_some] at hrec
    rw [hrec]
    refine ⟨by omega, ?_⟩
    simp only [joinSeg_refl, String.append_empty]
    rw [String.append_assoc]
    conv_lhs => rw [← String.append_assoc, ih2]
    rw [← join_take_succ t j (by omega)]
  | case4 i j hne h1 h2 ih =>
    intro hi hj
    obtain ⟨ih1, ih2⟩ := ih (by omega) hj
    have hb : backtraceOps s t (i + 1) (j + 1) =
        ⟨LevOpKind.delete, i, some (s.getD i ("")), none⟩ :: backtraceOps s t i (j + 1) := by
      rw [backtraceOps, if_neg hne, if_neg h1, if_pos h2]
    have hrec := replaySt_cons s t (i + 1) (j + 1) i (j + 1) _ hb
    simp only [Levenshtein.convertOperationsToDiffRecords, List.map_cons, List.map_nil,
      List.foldl_cons, List.foldl_nil, applyRecord, Option.getD_some] at hrec
    rw [hrec]
    refine ⟨by omega, ?_⟩
    simp only [joinSeg_refl, String.append_empty]
    exact ih2
  | case5 i j hne h1 h2 h3 ih =>
    intro hi hj
    obtain ⟨ih1, ih2⟩ := ih hi (by omega)
    have hb : backtraceOps s t (i + 1) (j + 1) =
        ⟨LevOpKind.insert, i + 1, none, some (t.getD j (""))⟩ ::
          backtraceOps s t (i + 1) j := by
      rw [backtraceOps, if_neg hne, if_neg h1, if_neg h2, if_pos h3]
    have hrec := replaySt_cons s t (i + 1) (j + 1) (i + 1) j _ hb
    simp only [Levenshtein.convertOperationsToDiffRecords, List.map_cons, List.map_nil,
      List.foldl_cons, List.foldl_nil, applyRecord, Option.getD_some] at hrec
    rw [hrec]
    refine ⟨le_refl _, ?_⟩
    simp only [joinSeg_refl, String.append_empty]
    rw [String.append_assoc]
    conv_lhs => rw [← String.append_assoc, ih2]
    rw [← join_take_succ t j (by omega)]
  | case6 i j hne h1 h2 h3 =>
    intro _ _
    rcases dp_succ_succ_cases s t i j hne with h | h | h <;> omega
  | case7 i ih =>
    intro hi hj
    obtain ⟨ih1, ih2⟩ := ih (by omega) hj
    have hb : backtraceOps s t (i + 1) 0 =
        ⟨LevOpKind.delete, i, some (s.getD i ("")), none⟩ :: backtraceOps s t i 0 := by
      rw [backtraceOps]
    have hrec := replaySt_cons s t (i + 1) 0 i 0 _ hb
    simp only [Levenshtein.convertOperationsToDiffRecords, List.map_cons, List.map_nil,
      List.foldl_cons, List.foldl_nil, applyRecord, Option.getD_some] at hrec
    rw [hrec]
    refine ⟨by omega, ?_⟩
    simp only [joinSeg_refl, String.append_empty]
    exact ih2
  | case8 j ih =>
    intro hi hj
    obtain ⟨ih1, ih2⟩ := ih hi (by omega)
    have hb : backtraceOps s t 0 (j + 1) =
        ⟨LevOpKind.insert, 0, none, some (t.getD j (""))⟩ :: backtraceOps s t 0 j := by
      rw [backtraceOps]
    have hrec := replaySt_cons s t 0 (j + 1) 0 j _ hb
    simp only [Levenshtein.convertOperationsToDiffRecords, List.map_cons, List.map_nil,
      List.foldl_cons, List.foldl_nil, applyRecord, Option.getD_some] at hrec
    have hz : (replaySt s t 0 j).2 = 0 := by omega
    rw [hz, joinSeg_refl, String.append_empty] at ih2
    rw [hrec]
    refine ⟨by omega, ?_⟩
    simp only [joinSeg_refl, String.append_empty]
    rw [hz, joinSeg_refl, String.append_empty, ih2, ← join_take_succ t j (by omega)]

theorem flatten_map_singleton (l : List Char) : (l.map (fun c => [c])).flatten = l := by
  induction l with
  | nil => simp
  | cons c cs ih => simp [ih]

theorem join_splitIntoChars (x : String) :
    String.join (TextProcessor.splitIntoChars x) = x := by
  apply String.ext
  simp only [String.join_eq, TextProcessor.splitIntoChars, List.map_map]
  have h : (String.data ∘ fun c => String.mk [c]) = fun c : Char => [c] := rfl
  rw [h, flatten_map_singleton]

theorem joinSeg_to_length (s : List String) (a : Nat) :
    joinSeg s a s.length = String.join (s.drop a) := by
  unfold joinSeg
  rw [← List.length_drop, List.take_length]

/-- C1 (amended): replaying the diff records converted from the raw,
pre-optimization backtrace operations — applying each delete/modify/add
record at its recorded position, in list (position) order — reconstructs
the target exactly: for all unit sequences it rebuilds the joined target
sequence, and for all texts it rebuilds the normalized second text from
the normalized first text's units.  The optimizer that `computeDiff`
applies afterwards can break this reconstruction, see
`replay_optimized_counterexample`. -/
theorem replay_unoptimized_reconstructs :
    (∀ str1 str2 : List String,
      replay str1 (Levenshtein.convertOperationsToDiffRecords
        (TextProcessor.calculateLevenshtein str1 str2).operations) = String.join str2) ∧
    (∀ A B : String,
      replay
        (TextProcessor.splitIntoChars
          (TextProcessor.preprocessText A TextProcessor.emptyPreprocessOptions))
        (Levenshtein.convertOperationsToDiffRecords
          (TextProcessor.calculateLevenshtein
            (TextProcessor.splitIntoChars
              (TextProcessor.preprocessText A TextProcessor.emptyPreprocessOptions))
            (TextProcessor.splitIntoChars
              (TextProcessor.preprocessText B TextProcessor.emptyPreprocessOptions))).operations)
        = TextProcessor.preprocessText B TextProcessor.emptyPreprocessOptions) := by
  have main : ∀ str1 str2 : List String,
      replay str1 (Levenshtein.convertOperationsToDiffRecords
        (TextProcessor.calculateLevenshtein str1 str2).operations) = String.join str2 := by
    intro s t
    obtain ⟨h2, h1⟩ := replaySt_invariant s t s.length t.length (le_refl _) (le_refl _)
    rw [List.take_length] at h1
    unfold replay TextProcessor.calculateLevenshtein
    simp only []
    rw [show (Levenshtein.convertOperationsToDiffRecords
        ((backtraceOps s t s.length t.length).reverse)).foldl (applyRecord s) ((""), 0) =
      replaySt s t s.length t.length from rfl]
    rw [← h1, joinSeg_to_length]
  constructor
  · exact main
  · intro A B
    rw [main, join_splitIntoChars]

/-- C1 (counterexample): `computeDiff("a", "xy")` (default options)
returns the single record `add "xy"@0` — the optimizer merged the insert
with the same-position replace, discarding the replaced source unit "a" —
and replaying that record list against "a" yields "xya", not "xy": the
claimed reconstruction fails on the records `computeDiff` actually
returns. -/
theorem replay_optimized_counterexample :
    Diff.calculateDiff ("a") ("xy") Diff.emptyDiffOptions (fun _ => 0) =
      Except.ok ⟨2, [⟨0, DiffRecordKind.add, ("xy"), none⟩], 0, ("a"), ("xy")⟩ ∧
    replay (TextProcessor.splitIntoChars ("a")) [⟨0, DiffRecordKind.add, ("xy"), none⟩] =
      ("xya") ∧
    ("xya") ≠ ("xy") := by
  refine ⟨?_, by decide, by decide⟩
  simp [Diff.calculateDiff, Diff.emptyDiffOptions, Diff.getSplitFunction,
    TextProcessor.preprocessText, TextProcessor.emptyPreprocessOptions,
    TextProcessor.removeBOM, TextProcessor.normalizeLineBreaks, TextProcessor.replaceCRLF,
    TextProcessor.normalizeWhitespace, TextProcessor.emptyWhitespaceOptions,
    TextProcessor.collapseSpacesGo, TextProcessor.flushSpaces,
    TextProcessor.splitIntoChars,
    Levenshtein.calculateLevenshteinT, Levenshtein.effectiveTimeout,
    Levenshtein.timeoutFires, Levenshtein.calculateLevenshtein, dp, backtraceOps,
    Levenshtein.optimizeOperations, Levenshtein.optCore, Levenshtein.mergeRunContent,
    Levenshtein.mergeRunRest, Levenshtein.convertOperationsToDiffRecords,
    Diff.calculateSimilarity]
  have h1 : ("a").length = 1 := rfl
  have h2 : ("xy").length = 2 := rfl
  rw [h1, h2]
  norm_num [round_eq]

/-! The reference edit distance: basic equations and adjacency bounds. -/

theorem lev_nil_left (t : List String) : lev [] t = t.length := by
  simp [lev]

theorem lev_nil_right (s : List String) : lev s [] = s.length := by
  cases s <;> simp [lev]

theorem lev_cons_cons (a b : String) (s t : List String) :
    lev (a :: s) (b :: t) =
      if a = b then lev s t
      else min (lev s (b :: t) + 1) (min (lev (a :: s) t + 1) (lev s t + 1)) := by
  rw [lev]

/-- Adding or removing one unit on either side changes the reference
distance by at most one. -/
theorem lev_adjacent :
    ∀ (n : Nat) (s t : List String), s.length + t.length ≤ n →
    (∀ a, lev (a :: s) t ≤ 1 + lev s t) ∧
    (∀ b, lev s (b :: t) ≤ 1 + lev s t) ∧
    (∀ a, lev s t ≤ 1 + lev (a :: s) t) ∧
    (∀ b, lev s t ≤ 1 + lev s (b :: t)) := by
  intro n
  induction n with
  | zero =>
    intro s t h
    obtain ⟨hs, ht⟩ : s = [] ∧ t = [] := by
      constructor <;> [skip; skip] <;> rw [← List.length_eq_zero] <;> omega
    subst hs
    subst ht
    refine ⟨fun a => ?_, fun b => ?_, fun a => ?_, fun b => ?_⟩ <;>
      simp [lev_nil_left, lev_nil_right]
  | succ n ihn =>
    intro s t h
    refine ⟨fun a => ?_, fun b => ?_, fun a => ?_, fun b => ?_⟩
    · -- lev (a :: s) t ≤ 1 + lev s t
      cases t with
      | nil => simp [lev_nil_right]; omega
      | cons b t' =>
        by_cases hab : a = b
        · subst hab
          rw [lev_cons_cons, if_pos rfl]
          have h4 := (ihn s t' (by simp at h ⊢; omega)).2.2.2 a
          omega
        · rw [lev_cons_cons, if_neg hab]
          omega
    · -- lev s (b :: t) ≤ 1 + lev s t
      cases s with
      | nil => simp [lev_nil_left]; omega
      | cons a s' =>
        by_cases hab : a = b
        · subst hab
          rw [lev_cons_cons, if_pos rfl]
          have h3 := (ihn s' t (by simp at h ⊢; omega)).2.2.1 a
          omega
        · rw [lev_cons_cons, if_neg hab]
          omega
    · -- lev s t ≤ 1 + lev (a :: s) t
      cases t with
      | nil => simp [lev_nil_right]; omega
      | cons b t' =>
        by_cases hab : a = b
        · subst hab
          rw [lev_cons_cons, if_pos rfl]
          have h2 := (ihn s t' (by simp at h ⊢; omega)).2.1 a
          omega
        · rw [lev_cons_cons, if_neg hab]
          have h2 := (ihn s t' (by simp at h ⊢; omega)).2.1 b
          have h3 := (ihn s t' (by simp at h ⊢; omega)).2.2.1 a
          omega
    · -- lev s t ≤ 1 + lev s (b :: t)
      cases s with
      | nil => simp [lev_nil_left]; omega
      | cons a s' =>
        by_cases hab : a = b
        · subst hab
          rw [lev_cons_cons, if_pos rfl]
          have h1 := (ihn s' t (by simp at h ⊢; omega)).1 a
          omega
        · rw [lev_cons_cons, if_neg hab]
          have h1 := (ihn s' t (by simp at h ⊢; omega)).1 a
          have h4 := (ihn s' t (by simp at h ⊢; omega)).2.2.2 b
          omega

theorem editSeq_nil_left (t : List String) : EditSeq [] t t.length := by
  induction t with
  | nil => exact EditSeq.nil
  | cons b t' ih => exact EditSeq.ins b ih

theorem editSeq_nil_right (s : List String) : EditSeq s [] s.length := by
  induction s with
  | nil => exact EditSeq.nil
  | cons a s' ih => exact EditSeq.del a ih

/-- There is an edit script whose length is the reference distance. -/
theorem editSeq_lev :
    ∀ (n : Nat) (s t : List String), s.length + t.length ≤ n → EditSeq s t (lev s t) := by
  intro n
  induction n with
  | zero =>
    intro s t h
    obtain ⟨hs, ht⟩ : s = [] ∧ t = [] := by
      constructor <;> rw [← List.length_eq_zero] <;> omega
    subst hs
    subst ht
    simpa [lev_nil_left] using EditSeq.nil
  | succ n ihn =>
    intro s t h
    cases s with
    | nil => rw [lev_nil_left]; exact editSeq_nil_left t
    | cons a s' =>
      cases t with
      | nil => rw [lev_nil_right]; exact editSeq_nil_right _
      | cons b t' =>
        simp only [List.length_cons] at h
        by_cases hab : a = b
        · subst hab
          rw [lev_cons_cons, if_pos rfl]
          exact EditSeq.copy a (ihn s' t' (by omega))
        · rw [lev_cons_cons, if_neg hab]
          have hm3 : min (lev s' (b :: t') + 1) (min (lev (a :: s') t' + 1) (lev s' t' + 1)) =
              lev s' (b :: t') + 1 ∨
            min (lev s' (b :: t') + 1) (min (lev (a :: s') t' + 1) (lev s' t' + 1)) =
              lev (a :: s') t' + 1 ∨
            min (lev s' (b :: t') + 1) (min (lev (a :: s') t' + 1) (lev s' t' + 1)) =
              lev s' t' + 1 := by omega
          rcases hm3 with hm | hm | hm <;> rw [hm]
          · exact EditSeq.del a (ihn s' (b :: t') (by simp; omega))
          · exact EditSeq.ins b (ihn (a :: s') t' (by simp; omega))
          · exact EditSeq.subst a b (ihn s' t' (by omega))

/-- No edit script is shorter than the reference distance. -/
theorem lev_le_of_editSeq {s t : List String} {k : Nat} (h : EditSeq s t k) :
    lev s t ≤ k := by
  induction h with
  | nil => simp [lev_nil_left]
  | copy a h ih =>
    rw [lev_cons_cons, if_pos rfl]
    exact ih
  | subst a b h ih =>
    by_cases hab : a = b
    · subst hab
      rw [lev_cons_cons, if_pos rfl]
      omega
    · rw [lev_cons_cons, if_neg hab]
      omega
  | del a h ih =>
    rename_i s' t' k'
    have h1 := (lev_adjacent (s'.length + t'.length) s' t' (le_refl _)).1 a
    omega
  | ins b h ih =>
    rename_i s' t' k'
    have h2 := (lev_adjacent (s'.length + t'.length) s' t' (le_refl _)).2.1 b
    omega

theorem editSeq_append_copy {s t : List String} {k : Nat} (h : EditSeq s t k) :
    ∀ a, EditSeq (s ++ [a]) (t ++ [a]) k := by
  induction h with
  | nil => intro a; simpa using EditSeq.copy a EditSeq.nil
  | copy c h ih => intro a; simpa using EditSeq.copy c (ih a)
  | subst c d h ih => intro a; simpa using EditSeq.subst c d (ih a)
  | del c h ih => intro a; simpa using EditSeq.del c (ih a)
  | ins d h ih => intro a; simpa using EditSeq.ins d (ih a)

theorem editSeq_append_subst {s t : List String} {k : Nat} (h : EditSeq s t k) :
    ∀ a b, EditSeq (s ++ [a]) (t ++ [b]) (k + 1) := by
  induction h with
  | nil => intro a b; simpa using EditSeq.subst a b EditSeq.nil
  | copy c h ih => intro a b; simpa using EditSeq.copy c (ih a b)
  | subst c d h ih => intro a b; simpa using EditSeq.subst c d (ih a b)
  | del c h ih => intro a b; simpa using EditSeq.del c (ih a b)
  | ins d h ih => intro a b; simpa using EditSeq.ins d (ih a b)

theorem editSeq_append_del {s t : List String} {k : Nat} (h : EditSeq s t k) :
    ∀ a, EditSeq (s ++ [a]) t (k + 1) := by
  induction h with
  | nil => intro a; simpa using EditSeq.del a EditSeq.nil
  | copy c h ih => intro a; simpa using EditSeq.copy c (ih a)
  | subst c d h ih => intro a; simpa using EditSeq.subst c d (ih a)
  | del c h ih => intro a; simpa using EditSeq.del c (ih a)
  | ins d h ih => intro a; simpa using EditSeq.ins d (ih a)

theorem editSeq_append_ins {s t : List String} {k : Nat} (h : EditSeq s t k) :
    ∀ b, EditSeq s (t ++ [b]) (k + 1) := by
  induction h with
  | nil => intro b; simpa using EditSeq.ins b EditSeq.nil
  | copy c h ih => intro b; simpa using EditSeq.copy c (ih b)
  | subst c d h ih => intro b; simpa using EditSeq.subst c d (ih b)
  | del c h ih => intro b; simpa using EditSeq.del c (ih b)
  | ins d h ih => intro b; simpa using EditSeq.ins d (ih b)

/-- Edit scripts are invariant under simultaneous reversal. -/
theorem editSeq_reverse {s t : List String} {k : Nat} (h : EditSeq s t k) :
    EditSeq s.reverse t.reverse k := by
  induction h with
  | nil => simpa using EditSeq.nil
  | copy a h ih => simpa [List.reverse_cons] using editSeq_append_copy ih a
  | subst a b h ih => simpa [List.reverse_cons] using editSeq_append_subst ih a b
  | del a h ih => simpa [List.reverse_cons] using editSeq_append_del ih a
  | ins b h ih => simpa [List.reverse_cons] using editSeq_append_ins ih b

theorem take_succ_reverse (s : List String) (i : Nat) (hi : i < s.length) :
    (s.take (i + 1)).reverse = s.getD i ("") :: (s.take i).reverse := by
  rw [List.take_succ, List.getElem?_eq_getElem hi, Option.toList_some, List.reverse_append,
    List.getD_eq_getElem s ("") hi]
  rfl

/-- Every matrix cell is the reference distance between the reversed
prefixes it indexes. -/
theorem dp_eq_lev (s t : List String) :
    ∀ i j, i ≤ s.length → j ≤ t.length →
    dp s t i j = lev ((s.take i).reverse) ((t.take j).reverse) := by
  intro i j
  induction i, j using dp.induct s t with
  | case1 i =>
    intro hi _
    rw [dp_i_zero]
    simp [lev_nil_right, hi]
  | case2 j =>
    intro _ hj
    rw [dp_zero_succ]
    simp only [List.take_zero, List.reverse_nil, lev_nil_left, List.length_reverse,
      List.length_take]
    omega
  | case3 i j heq ih =>
    intro hi hj
    have hi' : i < s.length := by omega
    have hj' : j < t.length := by omega
    rw [dp_succ_succ, if_pos heq, take_succ_reverse s i hi', take_succ_reverse t j hj',
      lev_cons_cons, if_pos heq, ih (by omega) (by omega)]
  | case4 i j hne ih1 ih2 ih3 =>
    intro hi hj
    have hi' : i < s.length := by omega
    have hj' : j < t.length := by omega
    rw [dp_succ_succ, if_neg hne, take_succ_reverse s i hi', take_succ_reverse t j hj',
      lev_cons_cons, if_neg hne]
    rw [← take_succ_reverse s i hi', ← take_succ_reverse t j hj']
    rw [ih1 (by omega) (by omega), ih2 (by omega) (by omega), ih3 (by omega) (by omega),
      take_succ_reverse s i hi', take_succ_reverse t j hj']

/-! Row-iterative computation agrees with the matrix cells. -/

theorem levRowAux_spec (s t : List String) (i : Nat) (hi : i < s.length) :
    ∀ (k j0 : Nat), j0 + k = t.length →
    levRowAux (s.getD i ("")) (dp s t (i + 1) j0)
      ((List.range' j0 (k + 1)).map (dp s t i)) (t.drop j0) =
      (List.range' (j0 + 1) k).map (dp s t (i + 1)) := by
  intro k
  induction k with
  | zero =>
    intro j0 hj
    have hd : t.drop j0 = [] := by
      apply List.drop_eq_nil_of_le
      omega
    rw [hd]
    simp [levRowAux]
  | succ k ihk =>
    intro j0 hj
    have hj0 : j0 < t.length := by omega
    have hd : t.drop j0 = t[j0] :: t.drop (j0 + 1) := List.drop_eq_getElem_cons hj0
    rw [hd, List.range'_succ, List.range'_succ, List.map_cons, List.map_cons]
    rw [levRowAux]
    have hu : t[j0] = t.getD j0 ("") := (List.getD_eq_getElem t ("") hj0).symm
    have hv : (if s.getD i ("") = t[j0] then dp s t i j0
        else min (dp s t i (j0 + 1) + 1) (min (dp s t (i + 1) j0 + 1) (dp s t i j0 + 1))) =
        dp s t (i + 1) (j0 + 1) := by
      rw [hu, ← dp_succ_succ]
    rw [hv]
    have hrec := ihk (j0 + 1) (by omega)
    rw [List.range'_succ, List.map_cons] at hrec
    rw [hrec, List.map_cons]

theorem levRowsGo_spec (s t : List String) :
    ∀ (xs : List String) (i : Nat), xs = s.drop i → i ≤ s.length →
    levRowsGo t xs i ((List.range' 0 (t.length + 1)).map (dp s t i)) =
      (List.range' 0 (t.length + 1)).map (dp s t s.length) := by
  intro xs
  induction xs with
  | nil =>
    intro i hxs hi
    have hieq : i = s.length := by
      have hlen := congrArg List.length hxs
      simp at hlen
      omega
    subst hieq
    rw [levRowsGo]
  | cons x xs' ih =>
    intro i hxs hi
    have hilt : i < s.length := by
      have hlen := congrArg List.length hxs
      simp at hlen
      omega
    have hcons := List.drop_eq_getElem_cons hilt
    rw [← hxs] at hcons
    injection hcons with hx hxs'
    rw [levRowsGo]
    have hgd : x = s.getD i ("") := by
      rw [hx, List.getD_eq_getElem s ("") hilt]
    have hrow : (i + 1) :: levRowAux x (i + 1)
        ((List.range' 0 (t.length + 1)).map (dp s t i)) t =
        (List.range' 0 (t.length + 1)).map (dp s t (i + 1)) := by
      have hspec := levRowAux_spec s t i hilt t.length 0 (by omega)
      rw [List.drop_zero, dp_i_zero] at hspec
      rw [hgd, hspec, List.range'_succ, List.map_cons, dp_i_zero]
    rw [hrow]
    exact ih (i + 1) hxs' (by omega)

theorem levFinalRow_spec (s t : List String) :
    levFinalRow s t = (List.range' 0 (t.length + 1)).map (dp s t s.length) := by
  unfold levFinalRow
  have h0 : List.range (t.length + 1) = (List.range' 0 (t.length + 1)).map (dp s t 0) := by
    rw [List.range_eq_range']
    have hcongr : ∀ a ∈ List.range' 0 (t.length + 1), dp s t 0 a = id a :=
      fun a _ => dp_zero_left s t a
    rw [List.map_congr_left hcongr, List.map_id]
  rw [h0]
  exact levRowsGo_spec s t s 0 (by simp) (by omega)

/-- The last cell of the row-iterative sweep is the matrix corner. -/
theorem dp_eq_levFinalRow (s t : List String) :
    dp s t s.length t.length = (levFinalRow s t).getD t.length 0 := by
  rw [levFinalRow_spec]
  rw [List.getD_eq_getElem _ _ (by simp)]
  simp [List.getElem_range']

theorem calculateLevenshtein_editDistance_eq_lev (s t : List String) :
    (Levenshtein.calculateLevenshtein s t).editDistance = lev s.reverse t.reverse := by
  show dp s t s.length t.length = _
  rw [dp_eq_lev s t s.length t.length (le_refl _) (le_refl _), List.take_length,
    List.take_length]

theorem calculateLevenshtein_editDistance_least (str1 str2 : List String) :
    IsLeast {k | EditSeq str1 str2 k}
      ((Levenshtein.calculateLevenshtein str1 str2).editDistance) := by
  constructor
  · show EditSeq str1 str2 _
    rw [calculateLevenshtein_editDistance_eq_lev]
    have h := editSeq_lev (str1.reverse.length + str2.reverse.length) str1.reverse
      str2.reverse (le_refl _)
    have h2 := editSeq_reverse h
    simpa using h2
  · intro k hk
    rw [calculateLevenshtein_editDistance_eq_lev]
    exact lev_le_of_editSeq (editSeq_reverse hk)

theorem kitten_editDistance :
    (Levenshtein.calculateLevenshtein (TextProcessor.splitIntoChars ("kitten"))
      (TextProcessor.splitIntoChars ("sitting"))).editDistance = 3 := by
  show dp _ _ _ _ = 3
  rw [show (TextProcessor.splitIntoChars ("kitten")).length = 6 from rfl,
    show (TextProcessor.splitIntoChars ("sitting")).length = 7 from rfl,
    show (6 : Nat) = (TextProcessor.splitIntoChars ("kitten")).length from rfl,
    show (7 : Nat) = (TextProcessor.splitIntoChars ("sitting")).length from rfl,
    dp_eq_levFinalRow]
  decide

/-- C2: for all unit sequences, the `editDistance` returned by
`calculateLevenshtein` is the least length of an edit script of
single-unit copy/replace/delete/insert steps transforming the first
sequence into the second (membership and minimality — the reference
Levenshtein definition); in particular for "kitten" and "sitting" split
into characters the edit distance is 3. -/
theorem editDistance_minimal :
    (∀ str1 str2 : List String,
      IsLeast {k | EditSeq str1 str2 k}
        ((Levenshtein.calculateLevenshtein str1 str2).editDistance)) ∧
    (Levenshtein.calculateLevenshtein (TextProcessor.splitIntoChars ("kitten"))
      (TextProcessor.splitIntoChars ("sitting"))).editDistance = 3 :=
  ⟨calculateLevenshtein_editDistance_least, kitten_editDistance⟩

/-- Witness for `editDistance_minimal`: at `["a"]`, `["b"]` the distance
is an achievable script length, and the lower-bound half applied to the
concrete one-step substitution script bounds it by 1. -/
theorem editDistance_minimal_witness :
    EditSeq [("a")] [("b")]
      ((Levenshtein.calculateLevenshtein [("a")] [("b")]).editDistance) ∧
    (Levenshtein.calculateLevenshtein [("a")] [("b")]).editDistance ≤ 1 :=
  ⟨(editDistance_minimal.1 [("a")] [("b")]).1,
    (editDistance_minimal.1 [("a")] [("b")]).2
      (EditSeq.subst ("a") ("b") EditSeq.nil)⟩
